import Mathlib

/-!
Verification of the tag-driven struct validation engine of the
go-api-toolkit repository (package `validation`), against its
natural-language specification.

The engine is shallowly embedded: Go strings are lists of characters
(`Str`), Go runtime values seen through `reflect` are the inductive
`GoValue`, and every function below mirrors one function of the source
(`validation/types.go`, `validation/rules.go`).  Side effects of the
structured logger are made explicit: functions that log return the list
of emitted log entries alongside their result.
-/

namespace GoToolkit

/-- Go strings, as lists of Unicode characters.  Go `len` on a string is
the UTF-8 byte count, computed by `utf8Len` below. -/
abbrev Str := List Char

/-- Coerce a Lean string literal to the `Str` representation. -/
def gs (s : String) : Str := s.data

/-- UTF-8 encoded width of one character. -/
def utf8Width (c : Char) : Nat :=
  if c.toNat < 0x80 then 1
  else if c.toNat < 0x800 then 2
  else if c.toNat < 0x10000 then 3
  else 4

/-- Go `len` of a string: its UTF-8 byte count. -/
def utf8Len (s : Str) : Nat := (s.map utf8Width).sum

/-- Character count of a string (the spec's "character count"). -/
def charCount (s : Str) : Nat := s.length

/-- ASCII whitespace recognizer.  Go `strings.TrimSpace` trims Unicode
white space; the ASCII subset is what the validation engine's inputs
exercise. -/
def isSpaceChar (c : Char) : Bool :=
  c = ' ' ∨ c = '\t' ∨ c = '\n' ∨ c = '\r'

/-- Go `strings.TrimSpace`. -/
def trimSpace (s : Str) : Str :=
  ((s.dropWhile isSpaceChar).reverse.dropWhile isSpaceChar).reverse

/-- Go `strings.Split(s, sep)` for a one-character separator (the engine
only splits on `","`, `" "` and `"-"`).  `Split("" , sep) = [""]`. -/
def splitOnChar (sep : Char) : Str → List Str
  | [] => [[]]
  | c :: rest =>
    if c = sep then [] :: splitOnChar sep rest
    else
      match splitOnChar sep rest with
      | [] => [[c]]
      | g :: gsx => (c :: g) :: gsx

/-- Go `strings.SplitN(s, "=", 2)` for a one-character separator: the
part before the first occurrence, and — when the separator occurs — the
remainder after it. -/
def splitFirstAt (sep : Char) : Str → Str × Option Str
  | [] => ([], none)
  | c :: rest =>
    if c = sep then ([], some rest)
    else
      let r := splitFirstAt sep rest
      (c :: r.1, r.2)

/-- Go `strings.Contains`. -/
def containsSub : Str → Str → Bool
  | [], pat => pat.isEmpty
  | c :: rest, pat => List.isPrefixOf pat (c :: rest) || containsSub rest pat

/-- One step of Go `strings.ReplaceAll`, fuelled so that the definition
is structural and kernel-reducible.  The fuel is the length of the
subject string; every pattern used by the engine is non-empty, for which
this is exact. -/
def replaceAllFuel (pat rep : Str) : Nat → Str → Str
  | 0, s => s
  | _ + 1, [] => []
  | fuel + 1, c :: rest =>
    if pat ≠ [] ∧ List.isPrefixOf pat (c :: rest) then
      rep ++ replaceAllFuel pat rep fuel (List.drop (pat.length - 1) rest)
    else
      c :: replaceAllFuel pat rep fuel rest

/-- Go `strings.ReplaceAll(s, pat, rep)` (non-empty `pat`). -/
def replaceAll (pat rep s : Str) : Str :=
  replaceAllFuel pat rep s.length s

/-- ASCII lower-casing of one character.  Go `strings.ToLower` is full
Unicode; ASCII is sufficient here because no non-ASCII character
lower-cases to an ASCII hexadecimal digit, hyphen or letter, so every
observation the engine makes agrees. -/
def asciiToLower (c : Char) : Char :=
  if 65 ≤ c.toNat ∧ c.toNat ≤ 90 then Char.ofNat (c.toNat + 32) else c

/-- Go `strings.ToLower`, ASCII fragment. -/
def strToLower (s : Str) : Str := s.map asciiToLower

/-- Decimal digit character for a value below ten. -/
def digitChar (d : Nat) : Char := Char.ofNat (48 + d)

/-- Decimal digits of a natural number, fuelled (structural). -/
def natToDigits : Nat → Nat → Str
  | 0, _ => []
  | _ + 1, n =>
    if n < 10 then [digitChar n]
    else natToDigits n (n / 10) ++ [digitChar (n % 10)]

/-- Decimal rendering of a natural number. -/
def natToStr (n : Nat) : Str := natToDigits (n + 1) n

/-- Decimal rendering of an integer (Go `%d`). -/
def intToStr (n : Int) : Str :=
  if n < 0 then '-' :: natToStr n.natAbs else natToStr n.natAbs

/-- Numeric value of a decimal digit character. -/
def digitVal (c : Char) : Option Nat :=
  if 48 ≤ c.toNat ∧ c.toNat ≤ 57 then some (c.toNat - 48) else none

/-- Accumulating decimal parse over the remaining characters. -/
def digitsValAux (acc : Nat) : Str → Option Nat
  | [] => some acc
  | c :: rest =>
    match digitVal c with
    | some d => digitsValAux (acc * 10 + d) rest
    | none => none

/-- Parse a non-empty all-digit string. -/
def digitsNonEmpty : Str → Option Nat
  | [] => none
  | s => digitsValAux 0 s

/-- Go `strconv.Atoi`: optional sign then one or more decimal digits.
The int64 range error of `Atoi` is not modelled; every parameter in
scope is small. -/
def atoi (s : Str) : Option Int :=
  match s with
  | [] => none
  | c :: rest =>
    if c = '+' then (digitsNonEmpty rest).map Int.ofNat
    else if c = '-' then (digitsNonEmpty rest).map (fun n => -(n : Int))
    else (digitsNonEmpty s).map Int.ofNat

/-- First-match lookup in an association list (Go map lookup; the maps
built by the engine have distinct keys). -/
def lookupStr {α : Type} : List (Str × α) → Str → Option α
  | [], _ => none
  | (k, v) :: rest, key => if k = key then some v else lookupStr rest key

/-- Insert-or-replace into an association list (Go map assignment). -/
def mapSet {α : Type} : List (Str × α) → Str → α → List (Str × α)
  | [], key, v => [(key, v)]
  | (k, w) :: rest, key, v =>
    if k = key then (k, v) :: rest else (k, w) :: mapSet rest key v

/-- Metadata of one exported-or-not struct field: its Go name, whether it
is exported, and the raw values of the `validate`, `validation`, `json`,
`form` and `message` struct tags (`reflect.StructTag.Get` yields the
empty string for an absent tag). -/
structure FieldMeta where
  name : Str
  exported : Bool
  tagValidate : Str
  tagValidation : Str
  tagJson : Str
  tagForm : Str
  tagMessage : Str

/-- Go runtime values as seen by the engine through `reflect` and
`interface` dynamic typing.  `VInvalid` is the invalid reflect value
(e.g. the result of `Elem` on a nil pointer); `VNil` is a nil interface
value.  Slice, array and map values carry their elements (only their
lengths are observed by the rules); a struct value carries its fields'
metadata and values in declaration order.  The source's float branches
are not modelled (floating point is outside the embedding); no claim
concerns float-valued fields. -/
inductive GoValue where
  | VInvalid
  | VNil
  | VString (s : Str)
  | VInt (n : Int)
  | VUint (n : Nat)
  | VBool (b : Bool)
  | VSlice (elems : List GoValue)
  | VArray (elems : List GoValue)
  | VMap (elems : List GoValue)
  | VPtr (p : Option GoValue)
  | VStruct (fields : List (FieldMeta × GoValue))

/-- The `reflect.Kind` of a value, as rendered by `Kind.String()` (the
string only appears in the non-struct configuration error).  A nil
interface has the invalid kind. -/
def kindStr : GoValue → Str
  | .VInvalid => gs "invalid"
  | .VNil => gs "invalid"
  | .VString _ => gs "string"
  | .VInt _ => gs "int"
  | .VUint _ => gs "uint"
  | .VBool _ => gs "bool"
  | .VSlice _ => gs "slice"
  | .VArray _ => gs "array"
  | .VMap _ => gs "map"
  | .VPtr _ => gs "ptr"
  | .VStruct _ => gs "struct"

/-- Go `v.Elem()` applied once when the top-level value is a pointer
(`ValidateStruct` lines 326–329): a nil pointer dereferences to the
invalid value. -/
def elemIfPtr : GoValue → GoValue
  | .VPtr none => .VInvalid
  | .VPtr (some x) => x
  | v => v

/-- Go `fmt.Sprintf("%v", value)` (external library), modelled for the
atomic values the engine formats.  Composite values use an abbreviated
rendering; no validation message in this development formats a
composite value. -/
def govStr : GoValue → Str
  | .VInvalid => gs "<invalid Value>"
  | .VNil => gs "<nil>"
  | .VString s => s
  | .VInt n => intToStr n
  | .VUint n => natToStr n
  | .VBool b => if b then gs "true" else gs "false"
  | .VPtr none => gs "<nil>"
  | _ => gs "<composite>"

/-- The shared validation context (`map[string]any`), passed through
untouched to every rule. -/
abbrev Ctx := List (Str × GoValue)

/-- A rule implementation: `Validate(value, params, context)` returning
`none` for pass or `some reason` for the failure's error string. -/
abbrev RuleFn := GoValue → Str → Ctx → Option Str

/-- One emitted structured log entry: level, message, key/value list. -/
structure LogEntry where
  level : Str
  msg : Str
  kv : List Str
deriving DecidableEq

/-- The source's `ValidationError`: field name, offending value, rule
name (the `Tag` field) and rendered message. -/
structure ValidationError where
  field : Str
  value : GoValue
  tag : Str
  message : Str

/-- The source's `ValidationErrors` collection. -/
structure ValidationErrors where
  errors : List ValidationError

/-- Go `ValidationErrors.HasErrors`. -/
def ValidationErrors.hasErrors (ve : ValidationErrors) : Bool :=
  ve.errors.length > 0

/-- Go `ValidationErrors.ToMap`: iterate the errors in order, assigning
`result[err.Field] = err.Message`. -/
def ValidationErrors.toMap (ve : ValidationErrors) : List (Str × Str) :=
  ve.errors.foldl (fun m e => mapSet m e.field e.message) []

/-- The result of `ValidateStruct` when it is not nil: either the
distinct configuration error for a non-struct input, or the collected
validation errors. -/
inductive GoErr where
  | config (msg : Str)
  | validation (errs : List ValidationError)

/-- The engine's `Config`.  The logger field is not carried: logging is
modelled by returning the emitted entries, and the `NoOpLogger` versus
adapted-logger distinction only changes where entries go, not the
engine's behaviour. -/
structure Config where
  customMessages : Bool
  stopOnFirstError : Bool
  locale : Str
  customRules : List (Str × RuleFn)
  errorMessages : List (Str × Str)

/-- The caller-facing `InitConfig` (zero value of a Go struct: false
booleans, empty locale string, nil maps — nil maps are `none`). -/
structure InitConfig where
  customMessages : Bool := false
  stopOnFirstError : Bool := false
  locale : Str := []
  customRules : Option (List (Str × RuleFn)) := none
  errorMessages : Option (List (Str × Str)) := none

/-- The per-call `ValidationConfig` built from options. -/
structure ValidationConfig where
  context : Ctx
  forceJSON : Bool
  forceForm : Bool
  locale : Str
  rules : List (Str × RuleFn)

/-- A `ValidationOption` mutates the per-call configuration. -/
abbrev ValidationOption := ValidationConfig → ValidationConfig

/-- Go `buildValidationConfig`: start from the defaults (empty context,
locale "en", empty rules) and apply each option in order. -/
def buildValidationConfig (opts : List ValidationOption) : ValidationConfig :=
  opts.foldl (fun c opt => opt c)
    { context := [], forceJSON := false, forceForm := false,
      locale := gs "en", rules := [] }

/-- Go `WithContext`. -/
def WithContext (ctx : Ctx) : ValidationOption :=
  fun c => { c with context := ctx }

/-- Go `WithLocale`. -/
def WithLocale (locale : Str) : ValidationOption :=
  fun c => { c with locale := locale }

/-- Go `WithCustomRules`: assign each given rule into the per-call rule
map. -/
def WithCustomRules (rules : List (Str × RuleFn)) : ValidationOption :=
  fun c => { c with rules := rules.foldl (fun m kv => mapSet m kv.1 kv.2) c.rules }

/-- The English message catalog (`getEnglishMessages`), in source
order. -/
def getEnglishMessages : List (Str × Str) :=
  [ (gs "required", gs "{field} is required"),
    (gs "min",      gs "{field} must be at least {param} characters"),
    (gs "max",      gs "{field} must be at most {param} characters"),
    (gs "email",    gs "{field} must be a valid email address"),
    (gs "oneof",    gs "{field} must be one of: {param}"),
    (gs "numeric",  gs "{field} must be numeric"),
    (gs "alpha",    gs "{field} must contain only letters"),
    (gs "alphanum", gs "{field} must contain only letters and numbers"),
    (gs "url",      gs "{field} must be a valid URL"),
    (gs "uuid",     gs "{field} must be a valid UUID"),
    (gs "phone",    gs "{field} must be a valid phone number"),
    (gs "nik",      gs "{field} must be a valid NIK"),
    (gs "phone_id", gs "{field} must be a valid Indonesian phone number") ]

/-- The Indonesian message catalog (`getIndonesianMessages`). -/
def getIndonesianMessages : List (Str × Str) :=
  [ (gs "required", gs "{field} wajib diisi"),
    (gs "min",      gs "{field} minimal {param} karakter"),
    (gs "max",      gs "{field} maksimal {param} karakter"),
    (gs "email",    gs "{field} harus berupa alamat email yang valid"),
    (gs "oneof",    gs "{field} harus salah satu dari: {param}"),
    (gs "numeric",  gs "{field} harus berupa angka"),
    (gs "alpha",    gs "{field} hanya boleh berisi huruf"),
    (gs "alphanum", gs "{field} hanya boleh berisi huruf dan angka"),
    (gs "url",      gs "{field} harus berupa URL yang valid"),
    (gs "uuid",     gs "{field} harus berupa UUID yang valid"),
    (gs "phone",    gs "{field} harus berupa nomor telepon yang valid"),
    (gs "nik",      gs "{field} harus berupa NIK yang valid"),
    (gs "phone_id", gs "{field} harus berupa nomor telepon Indonesia yang valid") ]

/-- Go `getDefaultMessages`: switch on the locale code, `"id"` selecting
the Indonesian catalog and everything else the English one. -/
def getDefaultMessages (locale : Str) : List (Str × Str) :=
  if locale = gs "id" then getIndonesianMessages else getEnglishMessages

/-- Go `getDefaultConfig`. -/
def getDefaultConfig : Config :=
  { customMessages := true, stopOnFirstError := false, locale := gs "en",
    customRules := [], errorMessages := getDefaultMessages (gs "en") }

/-- Go `applyConfigDefaults` (`validation/types.go` lines 60–89): start
from the defaults, take the caller's locale (re-deriving the default
messages for it), take the caller's custom rules if non-nil, merge the
caller's error-message overrides over the defaults, and copy the boolean
settings.  The logger adaptation performed there does not affect
validation behaviour and is not carried. -/
def applyConfigDefaults (config : InitConfig) : Config :=
  let result := getDefaultConfig
  let result :=
    if config.locale ≠ [] then
      { result with locale := config.locale,
                    errorMessages := getDefaultMessages config.locale }
    else result
  let result :=
    match config.customRules with
    | some r => { result with customRules := r }
    | none => result
  let result :=
    match config.errorMessages with
    | some em =>
      { result with
        errorMessages := em.foldl (fun m (kv : Str × Str) => mapSet m kv.1 kv.2) result.errorMessages }
    | none => result
  { result with customMessages := config.customMessages,
                stopOnFirstError := config.stopOnFirstError }

/-- The validation handler: configuration plus the rule map. -/
structure Handler where
  config : Config
  rules : List (Str × RuleFn)

/-- Go `NewHandler`: `registerBuiltInRules` is a no-op in the source
(built-ins live in `validateRule`'s switch), so the rule map holds
exactly the configured custom rules. -/
def NewHandler (config : Config) : Handler :=
  { config := config,
    rules := config.customRules.foldl (fun m kv => mapSet m kv.1 kv.2) [] }

/-- Go `getValidationTag`: the `validate` tag, falling back to the
`validation` tag when the former is empty. -/
def getValidationTag (m : FieldMeta) : Str :=
  if m.tagValidate ≠ [] then m.tagValidate else m.tagValidation

/-- Go `getCustomMessage`: the `message` tag verbatim. -/
def getCustomMessage (m : FieldMeta) : Str := m.tagMessage

/-- Head of a split result (a split never returns an empty list). -/
def headOrNil : List Str → Str
  | [] => []
  | s :: _ => s

/-- Go `getFieldName`: first comma-part of the `json` tag when the tag
is present and that part is not `"-"`, else the same for the `form` tag,
else the lower-cased Go field name. -/
def getFieldName (m : FieldMeta) : Str :=
  let jname := headOrNil (splitOnChar ',' m.tagJson)
  if m.tagJson ≠ [] ∧ jname ≠ gs "-" then jname
  else
    let fname := headOrNil (splitOnChar ',' m.tagForm)
    if m.tagForm ≠ [] ∧ fname ≠ gs "-" then fname
    else strToLower m.name

/-- Go `formatMessage`: substitute `{value}`; then, when the parameter
string embeds a `key=value` form, substitute that key's placeholder with
the value part, else substitute `{param}` with the raw parameter string
when non-empty. -/
def formatMessage (message params : Str) (value : GoValue) : Str :=
  let message := replaceAll (gs "{value}") (govStr value) message
  if containsSub params (gs "=") then
    match splitFirstAt '=' params with
    | (k, some v) => replaceAll ('{' :: k ++ ['}']) v message
    | (_, none) => message
  else if params ≠ [] then replaceAll (gs "{param}") params message
  else message

/-- Go `getLocalizedMessage`: resolve the catalog from the handler's
construction-time locale, look the rule up, substitute `{field}` and
`{value}`, run `formatMessage`; a rule with no catalog entry renders the
generic fallback. -/
def getLocalizedMessage (h : Handler) (rule field params : Str) (value : GoValue) : Str :=
  let messages := getDefaultMessages h.config.locale
  match lookupStr messages rule with
  | some msg =>
    let msg := replaceAll (gs "{field}") field msg
    let msg := replaceAll (gs "{value}") (govStr value) msg
    formatMessage msg params value
  | none => gs "validation failed for field " ++ field

/-- Go `validateRequired`: nil fails; a string failing after trimming,
an empty slice, map or array, and a nil pointer fail; every other kind
passes (the switch's default). -/
def validateRequired (value : GoValue) : Option Str :=
  match value with
  | .VNil => some (gs "field is required")
  | .VString s =>
    if trimSpace s = [] then some (gs "field is required") else none
  | .VSlice l => if l.length = 0 then some (gs "field is required") else none
  | .VMap l => if l.length = 0 then some (gs "field is required") else none
  | .VArray l => if l.length = 0 then some (gs "field is required") else none
  | .VPtr none => some (gs "field is required")
  | _ => none

/-- Go `validateMin`: parse the parameter with `strconv.Atoi` (a parse
failure is itself the returned error); strings compare `len` (UTF-8
bytes), signed integers the value, unsigned integers against
`uint64(min)` (conversion modulo 2^64), and slices, maps and arrays the
element count.  Other kinds pass.  The float branch is not modelled. -/
def validateMin (value : GoValue) (params : Str) : Option Str :=
  match atoi params with
  | none => some (gs "invalid min parameter: " ++ params)
  | some min =>
    match value with
    | .VString s =>
      if (utf8Len s : Int) < min then
        some (gs "field must be at least " ++ intToStr min ++ gs " characters")
      else none
    | .VInt n =>
      if n < min then some (gs "field must be at least " ++ intToStr min) else none
    | .VUint n =>
      if n % 2 ^ 64 < ((min % ((2 : Int) ^ 64)).toNat) then
        some (gs "field must be at least " ++ intToStr min)
      else none
    | .VSlice l =>
      if (l.length : Int) < min then
        some (gs "field must contain at least " ++ intToStr min ++ gs " items")
      else none
    | .VMap l =>
      if (l.length : Int) < min then
        some (gs "field must contain at least " ++ intToStr min ++ gs " items")
      else none
    | .VArray l =>
      if (l.length : Int) < min then
        some (gs "field must contain at least " ++ intToStr min ++ gs " items")
      else none
    | _ => none

/-- Go `validateMax`, mirror image of `validateMin`. -/
def validateMax (value : GoValue) (params : Str) : Option Str :=
  match atoi params with
  | none => some (gs "invalid max parameter: " ++ params)
  | some max =>
    match value with
    | .VString s =>
      if (utf8Len s : Int) > max then
        some (gs "field must be at most " ++ intToStr max ++ gs " characters")
      else none
    | .VInt n =>
      if n > max then some (gs "field must be at most " ++ intToStr max) else none
    | .VUint n =>
      if n % 2 ^ 64 > ((max % ((2 : Int) ^ 64)).toNat) then
        some (gs "field must be at most " ++ intToStr max)
      else none
    | .VSlice l =>
      if (l.length : Int) > max then
        some (gs "field must contain at most " ++ intToStr max ++ gs " items")
      else none
    | .VMap l =>
      if (l.length : Int) > max then
        some (gs "field must contain at most " ++ intToStr max ++ gs " items")
      else none
    | .VArray l =>
      if (l.length : Int) > max then
        some (gs "field must contain at most " ++ intToStr max ++ gs " items")
      else none
    | _ => none

/-- Go `validateEmail`: the value must be a string (dynamic type
assertion) containing both an `@` and a `.`. -/
def validateEmail (value : GoValue) : Option Str :=
  match value with
  | .VString s =>
    if ¬ containsSub s (gs "@") ∨ ¬ containsSub s (gs ".") then
      some (gs "field must be a valid email address")
    else none
  | _ => some (gs "field must be a string")

/-- Go `validateOneOf`: textual representation of the value must equal
one of the space-separated, individually trimmed options. -/
def validateOneOf (value : GoValue) (params : Str) : Option Str :=
  let str := govStr value
  let options := splitOnChar ' ' params
  if options.any (fun opt => trimSpace opt = str) then none
  else some (gs "field must be one of: " ++ params)

/-- ASCII decimal digit recognizer. -/
def isDigitCh (c : Char) : Bool := 48 ≤ c.toNat ∧ c.toNat ≤ 57

/-- All-characters-are-digits check. -/
def allDigits (s : Str) : Bool := s.all isDigitCh

/-- Decimal mantissa of a float literal: digits, optionally split by one
dot, with at least one digit present. -/
def mantissaOk (s : Str) : Bool :=
  match splitFirstAt '.' s with
  | (a, none) => a ≠ [] ∧ allDigits a
  | (a, some b) => allDigits a ∧ allDigits b ∧ (a ≠ [] ∨ b ≠ [])

/-- Exponent part of a float literal: optional sign then digits. -/
def expPartOk (s : Str) : Bool :=
  match s with
  | [] => false
  | c :: rest =>
    if c = '+' ∨ c = '-' then rest ≠ [] ∧ allDigits rest else allDigits s

/-- Go `strconv.ParseFloat` acceptance (external library): optional
sign, then either the words inf/infinity/nan (case-insensitive) or a
decimal mantissa with an optional decimal exponent.  Go's hexadecimal
float syntax is not modelled; no claim exercises the `numeric` rule. -/
def parseFloatOk (s : Str) : Bool :=
  match s with
  | [] => false
  | c :: rest =>
    let body := if c = '+' ∨ c = '-' then rest else s
    let lower := strToLower body
    if lower = gs "inf" ∨ lower = gs "infinity" ∨ lower = gs "nan" then true
    else
      match splitFirstAt 'e' lower with
      | (m, none) => mantissaOk m
      | (m, some ex) => mantissaOk m ∧ expPartOk ex

/-- Go `validateNumeric`: the value's textual representation must parse
as a float. -/
def validateNumeric (value : GoValue) : Option Str :=
  if parseFloatOk (govStr value) then none else some (gs "field must be numeric")

/-- ASCII letter recognizer (Go `'a'..'z'`, `'A'..'Z'` ranges). -/
def isAsciiLetter (c : Char) : Bool :=
  (97 ≤ c.toNat ∧ c.toNat ≤ 122) ∨ (65 ≤ c.toNat ∧ c.toNat ≤ 90)

/-- Go `validateAlpha`: must be a string of ASCII letters only. -/
def validateAlpha (value : GoValue) : Option Str :=
  match value with
  | .VString s =>
    if s.all isAsciiLetter then none else some (gs "field must contain only letters")
  | _ => some (gs "field must be a string")

/-- Go `validateAlphaNum`: must be a string of ASCII letters and digits
only. -/
def validateAlphaNum (value : GoValue) : Option Str :=
  match value with
  | .VString s =>
    if s.all (fun c => isAsciiLetter c || isDigitCh c) then none
    else some (gs "field must contain only letters and numbers")
  | _ => some (gs "field must be a string")

/-- Lowercase hexadecimal digit recognizer (regexp class `[0-9a-f]`). -/
def isHexLower (c : Char) : Bool :=
  (48 ≤ c.toNat ∧ c.toNat ≤ 57) ∨ (97 ≤ c.toNat ∧ c.toNat ≤ 102)

/-- Anchored match of a sequence of single-character classes against a
string: the regexp shape `^c1 c2 … cn$` used by the UUID rule. -/
def matchClasses : List (Char → Bool) → Str → Bool
  | [], [] => true
  | [], _ :: _ => false
  | _ :: _, [] => false
  | p :: ps, c :: cs => p c && matchClasses ps cs

/-- The UUID v4 regexp of `rules.go` line 105,
`[0-9a-f]{8}-[0-9a-f]{4}-4[0-9a-f]{3}-[89ab][0-9a-f]{3}-[0-9a-f]{12}`,
anchored at both ends, as its sequence of character classes. -/
def uuidPattern : List (Char → Bool) :=
  List.replicate 8 isHexLower ++ [fun c => decide (c = '-')] ++
  List.replicate 4 isHexLower ++ [fun c => decide (c = '-')] ++
  [fun c => decide (c = '4')] ++ List.replicate 3 isHexLower ++
  [fun c => decide (c = '-')] ++
  [fun c => decide (c = '8' ∨ c = '9' ∨ c = 'a' ∨ c = 'b')] ++
  List.replicate 3 isHexLower ++ [fun c => decide (c = '-')] ++
  List.replicate 12 isHexLower

/-- Go `UUIDRule.Validate`: the value must be a string whose lower-cased
form matches the anchored UUID v4 pattern. -/
def UUIDRule_Validate (value : GoValue) (_params : Str) (_ctx : Ctx) : Option Str :=
  match value with
  | .VString s =>
    if matchClasses uuidPattern (strToLower s) then none
    else some (gs "UUID must be a valid UUID v4")
  | _ => some (gs "UUID must be a string")

/-- Go `validateRule` (`validation/types.go` lines 423–451): a custom
rule registered under the name takes precedence; otherwise dispatch to
the built-in switch; an unknown name logs one warn-level entry naming
the rule and field, and passes.  The Go switch over string cases is the
sequential equality chain below.  Only the handler's rule map is read;
the result pairs the rule outcome with the emitted log entries. -/
def validateRule (h : Handler) (field : Str) (value : GoValue)
    (ruleName params : Str) (ctx : Ctx) : Option Str × List LogEntry :=
  match lookupStr h.rules ruleName with
  | some rule => (rule value params ctx, [])
  | none =>
    if ruleName = gs "required" then (validateRequired value, [])
    else if ruleName = gs "min" then (validateMin value params, [])
    else if ruleName = gs "max" then (validateMax value params, [])
    else if ruleName = gs "email" then (validateEmail value, [])
    else if ruleName = gs "oneof" then (validateOneOf value params, [])
    else if ruleName = gs "numeric" then (validateNumeric value, [])
    else if ruleName = gs "alpha" then (validateAlpha value, [])
    else if ruleName = gs "alphanum" then (validateAlphaNum value, [])
    else
      (none,
       [{ level := gs "warn", msg := gs "validation: unknown rule",
          kv := [gs "rule", ruleName, gs "field", field] }])

/-- Parsed rule name of one comma-token of a validation tag: the
trimmed part before the first `=` of the trimmed token. -/
def ruleNameOf (r : Str) : Str := trimSpace (splitFirstAt '=' (trimSpace r)).1

/-- Parsed parameter of one comma-token: the trimmed part after the
first `=`, empty when the token has no `=`. -/
def ruleParamsOf (r : Str) : Str :=
  match (splitFirstAt '=' (trimSpace r)).2 with
  | some p => trimSpace p
  | none => []

/-- The rule loop of Go `validateField` (lines 380–417): trim each
comma-token, skip blanks, split at the first `=` into name and trimmed
parameter, run the rule; on failure pick the message (literal `message`
tag with its own substitution, else the localized catalog message when
custom messages are enabled, else the rule's raw reason), append the
error, and break out of the loop when stop-on-first-error is set. -/
def validateRules (h : Handler) (fieldName customMessage : Str)
    (value : GoValue) (ctx : Ctx) :
    List Str → List ValidationError × List LogEntry
  | [] => ([], [])
  | r :: rest =>
    if trimSpace r = [] then validateRules h fieldName customMessage value ctx rest
    else
      match validateRule h fieldName value (ruleNameOf r) (ruleParamsOf r) ctx with
      | (none, logs) =>
        let next := validateRules h fieldName customMessage value ctx rest
        (next.1, logs ++ next.2)
      | (some errMsg, logs) =>
        let message :=
          if customMessage ≠ [] then formatMessage customMessage (ruleParamsOf r) value
          else if h.config.customMessages then
            getLocalizedMessage h (ruleNameOf r) fieldName (ruleParamsOf r) value
          else errMsg
        let ve : ValidationError :=
          { field := fieldName, value := value, tag := ruleNameOf r, message := message }
        if h.config.stopOnFirstError then ([ve], logs)
        else
          let next := validateRules h fieldName customMessage value ctx rest
          (ve :: next.1, logs ++ next.2)

/-- Go `validateField`: derive the external field name and the literal
message tag, split the validation tag on commas, and run the rule
loop. -/
def validateField (h : Handler) (m : FieldMeta) (value : GoValue)
    (tag : Str) (ctx : Ctx) : List ValidationError × List LogEntry :=
  validateRules h (getFieldName m) (getCustomMessage m) value ctx
    (splitOnChar ',' tag)

/-- The field loop of Go `ValidateStruct` (lines 338–362): walk fields
in declaration order, skip unexported fields and fields whose validation
tag is empty or `-`, collect each field's errors, and break out of the
loop after the first field that produced errors when stop-on-first-error
is set. -/
def validateFields (h : Handler) (ctx : Ctx) :
    List (FieldMeta × GoValue) → List ValidationError × List LogEntry
  | [] => ([], [])
  | (m, v) :: rest =>
    if ¬ m.exported then validateFields h ctx rest
    else
      let tag := getValidationTag m
      if tag = [] ∨ tag = gs "-" then validateFields h ctx rest
      else
        let fieldResult := validateField h m v tag ctx
        if ¬ fieldResult.1.isEmpty ∧ h.config.stopOnFirstError then fieldResult
        else
          let next := validateFields h ctx rest
          (fieldResult.1 ++ next.1, fieldResult.2 ++ next.2)

/-- Go `ValidateStruct` (lines 321–369): nil input is a no-op; a
pointer is dereferenced once; a non-struct value yields the distinct
configuration error; otherwise the collected field errors are returned
when non-empty. -/
def ValidateStruct (h : Handler) (obj : Option GoValue) (ctx : Ctx) :
    Option GoErr × List LogEntry :=
  match obj with
  | none => (none, [])
  | some v0 =>
    let v := elemIfPtr v0
    match v with
    | .VStruct fields =>
      let res := validateFields h ctx fields
      if res.1.isEmpty then (none, res.2) else (some (.validation res.1), res.2)
    | _ =>
      (some (.config (gs "validation: expected struct, got " ++ kindStr v)), [])

/-- Go `Validate` (`validation/gin.go` lines 122–129): build the
per-call configuration from the options and call `ValidateStruct` with
the configured context.  The handler is the process-global one,
passed here explicitly.  Note the source forwards only the context:
the per-call locale and rules of the built configuration are unused. -/
def Validate (h : Handler) (obj : Option GoValue)
    (opts : List ValidationOption) : Option GoErr × List LogEntry :=
  let config := buildValidationConfig opts
  ValidateStruct h obj config.context

/-! Spec-side characterizations and concrete fixtures used by the
theorems below. -/

/-- The given configuration with stop-on-first-error disabled.  Running
the engine under `noStop cfg` yields the full failure list in
field-then-rule declaration order; the stop-mode theorems compare a
stop-mode run against it. -/
def noStop (cfg : Config) : Config := { cfg with stopOnFirstError := false }

/-- The rule names of the built-in switch of `validateRule`, in source
order. -/
def builtinRuleNames : List Str :=
  [gs "required", gs "min", gs "max", gs "email", gs "oneof",
   gs "numeric", gs "alpha", gs "alphanum"]

/-- Spec-side characterization of the `required` rule's failure set (the
type's zero/empty forms as the spec words them): a nil value, a string
empty after trimming whitespace, an empty sequence or mapping, or a nil
pointer. -/
def specRequiredEmptyForm : GoValue → Bool
  | .VNil => true
  | .VString s => (trimSpace s).isEmpty
  | .VSlice l => l.isEmpty
  | .VMap l => l.isEmpty
  | .VArray l => l.isEmpty
  | .VPtr p => p.isNone
  | _ => false

/-- Spec-side characterization of the UUID version-4 textual layout:
five hyphen-separated groups of lowercase hexadecimal characters with
lengths 8, 4, 4, 4 and 12, the third group starting with `4` and the
fourth starting with one of `8`, `9`, `a`, `b`. -/
def uuidV4Layout (s : Str) : Prop :=
  ∃ g1 g2 g3 g4 g5 : Str,
    s = g1 ++ ['-'] ++ g2 ++ ['-'] ++ g3 ++ ['-'] ++ g4 ++ ['-'] ++ g5
    ∧ g1.length = 8 ∧ g2.length = 4 ∧ g3.length = 4 ∧ g4.length = 4
    ∧ g5.length = 12
    ∧ (∀ c ∈ g1 ++ g2 ++ g3 ++ g4 ++ g5, isHexLower c = true)
    ∧ (∃ t, g3 = '4' :: t)
    ∧ (∃ c t, g4 = c :: t ∧ (c = '8' ∨ c = '9' ∨ c = 'a' ∨ c = 'b'))

/-- Last message recorded for a field in an error list: the message of
the final error carrying that field name, if any. -/
def lastMessageFor (es : List ValidationError) (f : Str) : Option Str :=
  ((es.filter (fun e => decide (e.field = f))).map (fun e => e.message)).getLast?

/-- Option fallback: the first operand when present, else the second. -/
def olast {α : Type} : Option α → Option α → Option α
  | some x, _ => some x
  | none, b => b

/-- Build field metadata with a `validate` tag and a `json` tag (the
other tags absent), an exported field. -/
def mkMeta (name tagValidate tagJson : String) : FieldMeta :=
  { name := gs name, exported := true, tagValidate := gs tagValidate,
    tagValidation := [], tagJson := gs tagJson, tagForm := [],
    tagMessage := [] }

/-- A handler over the default configuration (English locale, custom
messages on, stop-on-first-error off, no custom rules). -/
def defaultHandler : Handler := NewHandler getDefaultConfig

/-- The default configuration with stop-on-first-error enabled. -/
def cfgStop : Config := { getDefaultConfig with stopOnFirstError := true }

/-- Fields of a two-field struct that both fail `required` (the second
also fails `email`): the stop-mode demonstrations run on it. -/
def demoFields : List (FieldMeta × GoValue) :=
  [ (mkMeta "Name" "required" "name", .VString []),
    (mkMeta "Email" "required,email" "email", .VString []) ]

/-- The two-field demonstration struct. -/
def demoStruct : GoValue := .VStruct demoFields

/-- A one-field struct whose field fails `required`, used by the
locale and override demonstrations. -/
def demoRequiredStruct : GoValue :=
  .VStruct [ (mkMeta "Name" "required" "name", .VString []) ]

/-- The construction-time configuration of the override demonstration:
caller-supplied `ErrorMessages` overriding the `required` template,
custom messages enabled, passed through `applyConfigDefaults` as
`InitGin` does. -/
def cfgOverride : Config :=
  applyConfigDefaults
    { customMessages := true,
      errorMessages := some [(gs "required", gs "custom required message")] }

/-- A struct carrying a malformed `min` parameter after a failing
`required` field, for the stop-mode shadowing demonstration. -/
def demoMalformedStruct : GoValue :=
  .VStruct
    [ (mkMeta "Name" "required" "name", .VString []),
      (mkMeta "Age" "min=abc" "age", .VString (gs "hi")) ]

/-! Theorems. -/

/-- C10: a non-nil input holding a typed nil pointer does not take the
nil no-op path of `ValidateStruct`: dereferencing the nil pointer gives
the invalid value, whose kind is not struct, so the distinct
configuration error is returned; only a literally nil input returns nil
with no validation performed. -/
theorem C10_typed_nil_pointer (h : Handler) (ctx : Ctx) :
    (ValidateStruct h (some (.VPtr none)) ctx).1
      = some (.config (gs "validation: expected struct, got invalid"))
    ∧ (ValidateStruct h none ctx).1 = none :=
  ⟨rfl, rfl⟩

/-- C5: `validateRequired` fails exactly on the zero/empty forms the
spec names — a nil value, a string empty after trimming whitespace, an
empty slice, map or array, a nil pointer — and on nothing else; in
particular the integer 0 passes. -/
theorem C5_required_empty_forms :
    (∀ v : GoValue, (validateRequired v).isSome = specRequiredEmptyForm v)
    ∧ validateRequired (.VInt 0) = none := by
  refine ⟨fun v => ?_, rfl⟩
  cases v with
  | VString s =>
    simp only [validateRequired, specRequiredEmptyForm]
    split <;> simp_all [List.isEmpty_iff]
  | VSlice l =>
    simp only [validateRequired, specRequiredEmptyForm]
    split <;> simp_all [List.isEmpty_iff, List.length_eq_zero]
  | VMap l =>
    simp only [validateRequired, specRequiredEmptyForm]
    split <;> simp_all [List.isEmpty_iff, List.length_eq_zero]
  | VArray l =>
    simp only [validateRequired, specRequiredEmptyForm]
    split <;> simp_all [List.isEmpty_iff, List.length_eq_zero]
  | VPtr p => cases p <;> rfl
  | _ => rfl

/-- C6: a rule name registered neither as a custom rule nor in the
built-in switch is a no-op pass for every value: `validateRule` returns
no error and emits exactly one warn-level entry naming the rule and the
field. -/
theorem C6_unknown_rule_noop (h : Handler) (field : Str) (value : GoValue)
    (ruleName params : Str) (ctx : Ctx)
    (hcustom : lookupStr h.rules ruleName = none)
    (hbuiltin : ruleName ∉ builtinRuleNames) :
    validateRule h field value ruleName params ctx
      = (none,
         [{ level := gs "warn", msg := gs "validation: unknown rule",
            kv := [gs "rule", ruleName, gs "field", field] }]) := by
  simp only [builtinRuleNames, List.mem_cons, List.not_mem_nil, or_false,
    not_or] at hbuiltin
  obtain ⟨h1, h2, h3, h4, h5, h6, h7, h8⟩ := hbuiltin
  unfold validateRule
  rw [hcustom]
  simp [h1, h2, h3, h4, h5, h6, h7, h8]

/-- Witness for C6 at the rule name "foo" on the default handler. -/
theorem C6_unknown_rule_noop_witness :
    validateRule defaultHandler (gs "age") (.VInt 3) (gs "foo") [] []
      = (none,
         [{ level := gs "warn", msg := gs "validation: unknown rule",
            kv := [gs "rule", gs "foo", gs "field", gs "age"] }]) :=
  C6_unknown_rule_noop defaultHandler (gs "age") (.VInt 3) (gs "foo") [] []
    rfl (by decide)

/-- C4 counterexample: the claim says the `min` rule on a string passes
iff the character count is at least the parameter, but the source
compares Go `len`, the UTF-8 byte count: the one-character string "é"
(two bytes) passes `min=2` although its character count is below 2. -/
theorem C4_min_charcount_counterexample :
    validateMin (.VString (gs "é")) (gs "2") = none
    ∧ charCount (gs "é") < 2 :=
  ⟨rfl, by decide⟩

/-- C4 (amended): for string fields the `min` rule with integer
parameter n passes iff the string's UTF-8 byte count is at least n, and
`max` with parameter m passes iff the byte count is at most m (for
all-ASCII strings byte count and character count coincide, giving the
5–10 inclusive window of the spec's example). -/
theorem C4_min_max_byte_length (s pmin pmax : Str) (nmin nmax : Int)
    (hmin : atoi pmin = some nmin) (hmax : atoi pmax = some nmax) :
    (validateMin (.VString s) pmin = none ↔ nmin ≤ (utf8Len s : Int))
    ∧ (validateMax (.VString s) pmax = none ↔ (utf8Len s : Int) ≤ nmax) := by
  unfold validateMin validateMax
  rw [hmin, hmax]
  constructor
  · split <;> simp_all
  · split <;> simp_all

/-- Witness for C4 (amended) at min=5, max=10 on the five-byte string
"hello". -/
theorem C4_min_max_byte_length_witness :
    (validateMin (.VString (gs "hello")) (gs "5") = none
      ↔ (5 : Int) ≤ (utf8Len (gs "hello") : Int))
    ∧ (validateMax (.VString (gs "hello")) (gs "10") = none
      ↔ (utf8Len (gs "hello") : Int) ≤ (10 : Int)) :=
  C4_min_max_byte_length (gs "hello") (gs "5") (gs "10") 5 10 rfl rfl

/-- C2: the code ignores the per-call locale.  `Validate` forwards only
the context of the built per-call configuration, and
`getLocalizedMessage` resolves the catalog from the construction-time
locale, so a failing `required` rule under `WithLocale "id"` still
renders the English template even though the Indonesian catalog carries
a distinct one.  (The resolution half of the claim does hold: the
catalog is chosen by exact match on "id" and any other code falls back
to the English catalog.) -/
theorem C2_withLocale_ignored :
    (Validate defaultHandler (some demoRequiredStruct) [WithLocale (gs "id")]).1
      = some (.validation
          [{ field := gs "name", value := .VString [], tag := gs "required",
             message := gs "name is required" }])
    ∧ lookupStr (getDefaultMessages (gs "id")) (gs "required")
        = some (gs "{field} wajib diisi")
    ∧ getDefaultMessages (gs "fr") = getEnglishMessages :=
  ⟨rfl, rfl, rfl⟩

/-- C3: caller-supplied message overrides are merged into the
configuration (first conjunct) but localized rendering never consults
the merged catalog: `getLocalizedMessage` re-derives the locale's
default catalog, so a failing `required` rule renders the default
template, not the configured override. -/
theorem C3_message_overrides_ignored :
    lookupStr cfgOverride.errorMessages (gs "required")
      = some (gs "custom required message")
    ∧ (ValidateStruct (NewHandler cfgOverride) (some demoRequiredStruct) []).1
      = some (.validation
          [{ field := gs "name", value := .VString [], tag := gs "required",
             message := gs "name is required" }]) :=
  ⟨rfl, rfl⟩

theorem olast_some {α : Type} (x : α) (b : Option α) : olast (some x) b = some x := rfl

theorem olast_none {α : Type} (b : Option α) : olast none b = b := rfl

theorem olast_none_right {α : Type} (a : Option α) : olast a none = a := by
  cases a <;> rfl

/-- Lookup after a map assignment: the assigned key reads the new value,
every other key is unchanged. -/
theorem lookupStr_mapSet {α : Type} (m : List (Str × α)) (key q : Str) (v : α) :
    lookupStr (mapSet m key v) q = if key = q then some v else lookupStr m q := by
  induction m with
  | nil => simp [mapSet, lookupStr]
  | cons kv rest ih =>
    obtain ⟨k, w⟩ := kv
    simp only [mapSet]
    split
    · simp_all [lookupStr]
    · simp only [lookupStr, ih]
      split <;> split <;> simp_all

theorem cons_getLast?_some {α : Type} (a : α) (l : List α) :
    ∃ x, (a :: l).getLast? = some x := by
  induction l generalizing a with
  | nil => exact ⟨a, rfl⟩
  | cons b t ih =>
    obtain ⟨x, hx⟩ := ih b
    exact ⟨x, by rw [List.getLast?_cons_cons]; exact hx⟩

/-- Folding map assignments over an error list: the lookup of a field is
the last message recorded for it in the list, falling back to the
initial map. -/
theorem toMap_foldl_lookup (es : List ValidationError) (m : List (Str × Str)) (f : Str) :
    lookupStr (es.foldl (fun acc e => mapSet acc e.field e.message) m) f
      = olast (lastMessageFor es f) (lookupStr m f) := by
  induction es generalizing m with
  | nil => simp [lastMessageFor, olast]
  | cons e rest ih =>
    simp only [List.foldl_cons]
    rw [ih, lookupStr_mapSet]
    by_cases hf : e.field = f
    · subst hf
      simp only [lastMessageFor, List.filter_cons, List.map_cons, decide_True,
        if_true]
      cases hM : (List.filter (fun a => decide (a.field = e.field)) rest).map
          (fun a => a.message) with
      | nil => rfl
      | cons b t =>
        rw [List.getLast?_cons_cons]
        obtain ⟨x, hx⟩ := cons_getLast?_some b t
        rw [hx]
        rfl
    · simp only [lastMessageFor, List.filter_cons]
      rw [show decide (e.field = f) = false by simp [hf], if_neg hf]
      simp only [Bool.false_eq_true, if_false]

/-- C9: `ToMap` maps each field name occurring in the error list to the
message of the last error carrying that field (last message per field
wins), and maps nothing else: the lookup of any field name equals the
last message recorded for it, which is `none` exactly when the field
occurs in no error.  Hence the conversion preserves one message per
distinct failed field. -/
theorem C9_toMap_last_message_wins (ve : ValidationErrors) (f : Str) :
    lookupStr ve.toMap f = lastMessageFor ve.errors f := by
  have h := toMap_foldl_lookup ve.errors [] f
  simpa [ValidationErrors.toMap, lookupStr, olast_none_right] using h

theorem handler_mk_config (c : Config) (rules : List (Str × RuleFn)) :
    (Handler.mk c rules).config = c := rfl

theorem noStop_stop (c : Config) : (noStop c).stopOnFirstError = false := rfl

theorem noStop_customMessages (c : Config) :
    (noStop c).customMessages = c.customMessages := rfl

/-- `validateRule` reads only the handler's rule map, so the
configuration component is irrelevant to it. -/
theorem validateRule_config_irrelevant (c c2 : Config) (rules : List (Str × RuleFn))
    (f : Str) (v : GoValue) (n p : Str) (ctx : Ctx) :
    validateRule ⟨c, rules⟩ f v n p ctx = validateRule ⟨c2, rules⟩ f v n p ctx := rfl

/-- `getLocalizedMessage` reads only the locale, which `noStop`
preserves. -/
theorem getLocalizedMessage_noStop (c : Config) (rules : List (Str × RuleFn))
    (r f p : Str) (v : GoValue) :
    getLocalizedMessage ⟨noStop c, rules⟩ r f p v
      = getLocalizedMessage ⟨c, rules⟩ r f p v := rfl

/-- With stop-on-first-error set, the rule loop's error list is the
first element (if any) of the error list the same loop produces with
stop mode off, i.e. of the full in-order failure list of the field. -/
theorem validateRules_stop_take (cfg : Config) (rules : List (Str × RuleFn))
    (fn cm : Str) (v : GoValue) (ctx : Ctx) (rs : List Str)
    (hstop : cfg.stopOnFirstError = true) :
    (validateRules ⟨cfg, rules⟩ fn cm v ctx rs).1
      = ((validateRules ⟨noStop cfg, rules⟩ fn cm v ctx rs).1).take 1 := by
  induction rs with
  | nil => rfl
  | cons r rest ih =>
    simp only [validateRules]
    by_cases hrt : trimSpace r = []
    · simp only [if_pos hrt]
      exact ih
    · simp only [if_neg hrt,
        validateRule_config_irrelevant (noStop cfg) cfg rules fn v
          (ruleNameOf r) (ruleParamsOf r) ctx]
      rcases hvr : validateRule ⟨cfg, rules⟩ fn v (ruleNameOf r) (ruleParamsOf r) ctx
        with ⟨res, logs⟩
      cases res with
      | none => simpa using ih
      | some errMsg =>
        simp [hstop, noStop_stop, noStop_customMessages, getLocalizedMessage_noStop]

/-- With stop-on-first-error set, the field loop's error list is the
first element (if any) of the full in-order error list of the no-stop
run. -/
theorem validateFields_stop_take (cfg : Config) (rules : List (Str × RuleFn))
    (ctx : Ctx) (fs : List (FieldMeta × GoValue))
    (hstop : cfg.stopOnFirstError = true) :
    (validateFields ⟨cfg, rules⟩ ctx fs).1
      = ((validateFields ⟨noStop cfg, rules⟩ ctx fs).1).take 1 := by
  induction fs with
  | nil => rfl
  | cons fv rest ih =>
    obtain ⟨m, v⟩ := fv
    simp only [validateFields]
    split
    · exact ih
    · split
      · exact ih
      · have hf : (validateField ⟨cfg, rules⟩ m v (getValidationTag m) ctx).1
            = ((validateField ⟨noStop cfg, rules⟩ m v (getValidationTag m) ctx).1).take 1 :=
          validateRules_stop_take cfg rules (getFieldName m) (getCustomMessage m)
            v ctx (splitOnChar ',' (getValidationTag m)) hstop
        simp only [handler_mk_config, hstop, noStop_stop, and_true,
          Bool.false_eq_true, and_false, if_false, apply_ite Prod.fst]
        rw [hf]
        cases hA : (validateField ⟨noStop cfg, rules⟩ m v (getValidationTag m) ctx).1 with
        | nil => simpa using ih
        | cons a t => simp

/-- C1: with stop-on-first-error enabled, for every structure with at
least one failing field `ValidateStruct` returns exactly one
`ValidationError`: the head of the full failure list that the no-stop
run produces in field-then-rule declaration order, i.e. the first
failing rule of the first failing field.  No later rule of that field
and no later field contributes an error. -/
theorem C1_stop_on_first_error (cfg : Config) (rules : List (Str × RuleFn))
    (fields : List (FieldMeta × GoValue)) (ctx : Ctx)
    (hstop : cfg.stopOnFirstError = true)
    (hfail : (validateFields ⟨noStop cfg, rules⟩ ctx fields).1 ≠ []) :
    ∃ e, ((validateFields ⟨noStop cfg, rules⟩ ctx fields).1).head? = some e
      ∧ (ValidateStruct ⟨cfg, rules⟩ (some (.VStruct fields)) ctx).1
          = some (.validation [e]) := by
  have hf := validateFields_stop_take cfg rules ctx fields hstop
  cases hA : (validateFields ⟨noStop cfg, rules⟩ ctx fields).1 with
  | nil => exact absurd hA hfail
  | cons a t =>
    rw [hA] at hf
    have hf1 : (validateFields ⟨cfg, rules⟩ ctx fields).1 = [a] := by
      simpa using hf
    refine ⟨a, rfl, ?_⟩
    simp [ValidateStruct, elemIfPtr, hf1]

/-- Witness for C1 on a two-field struct both of whose fields fail:
only the first field's first failing rule is reported. -/
theorem C1_stop_on_first_error_witness :
    (ValidateStruct ⟨cfgStop, []⟩ (some (.VStruct demoFields)) []).1
      = some (.validation
          [{ field := gs "name", value := .VString [], tag := gs "required",
             message := gs "name is required" }]) := by
  obtain ⟨e, he, hres⟩ := C1_stop_on_first_error cfgStop [] demoFields [] rfl
    (by
      rw [show (validateFields ⟨noStop cfgStop, []⟩ [] demoFields).1
            = [{ field := gs "name", value := .VString [], tag := gs "required",
                 message := gs "name is required" },
               { field := gs "email", value := .VString [], tag := gs "required",
                 message := gs "email is required" },
               { field := gs "email", value := .VString [], tag := gs "email",
                 message := gs "email must be a valid email address" }] from rfl]
      simp)
  have he2 : some (⟨gs "name", GoValue.VString [], gs "required",
      gs "name is required"⟩ : ValidationError) = some e := by
    rw [← he]
    rfl
  rw [hres, ← Option.some.inj he2]

/-- With stop mode off, every failing rule token of a field's tag list
contributes an error carrying the field's name and the token's parsed
rule name. -/
theorem validateRules_mem_fail (cfg : Config) (rules : List (Str × RuleFn))
    (fn cm : Str) (v : GoValue) (ctx : Ctx) (rs : List Str) (r : Str)
    (hstop : cfg.stopOnFirstError = false)
    (hr : r ∈ rs) (hrt : trimSpace r ≠ [])
    (hfail : (validateRule ⟨cfg, rules⟩ fn v (ruleNameOf r) (ruleParamsOf r) ctx).1.isSome
      = true) :
    ∃ e ∈ (validateRules ⟨cfg, rules⟩ fn cm v ctx rs).1,
      e.field = fn ∧ e.tag = ruleNameOf r := by
  induction rs with
  | nil => cases hr
  | cons r0 rest ih =>
    rcases List.mem_cons.mp hr with hr0 | hrm
    · subst hr0
      simp only [validateRules, if_neg hrt]
      rcases hvr : validateRule ⟨cfg, rules⟩ fn v (ruleNameOf r) (ruleParamsOf r) ctx
        with ⟨res, logs⟩
      cases res with
      | none => rw [hvr] at hfail; simp at hfail
      | some errMsg =>
        simp only [hstop, Bool.false_eq_true, if_false]
        exact ⟨_, List.mem_cons_self _ _, rfl, rfl⟩
    · simp only [validateRules]
      by_cases hrt0 : trimSpace r0 = []
      · simp only [if_pos hrt0]
        exact ih hrm
      · simp only [if_neg hrt0]
        rcases hvr : validateRule ⟨cfg, rules⟩ fn v (ruleNameOf r0) (ruleParamsOf r0) ctx
          with ⟨res0, logs0⟩
        cases res0 with
        | none => exact ih hrm
        | some m0 =>
          simp only [hstop, Bool.false_eq_true, if_false]
          obtain ⟨e, hm, hp⟩ := ih hrm
          exact ⟨e, List.mem_cons_of_mem _ hm, hp⟩

/-- With stop mode off, an error produced by any exported,
non-skipped field of the struct survives into the struct-level error
list. -/
theorem validateFields_mem (cfg : Config) (rules : List (Str × RuleFn))
    (ctx : Ctx) (fs : List (FieldMeta × GoValue)) (m : FieldMeta) (v : GoValue)
    (P : ValidationError → Prop)
    (hstop : cfg.stopOnFirstError = false)
    (hmem : (m, v) ∈ fs) (hexp : m.exported = true)
    (ht1 : getValidationTag m ≠ []) (ht2 : getValidationTag m ≠ gs "-")
    (hex : ∃ e ∈ (validateField ⟨cfg, rules⟩ m v (getValidationTag m) ctx).1, P e) :
    ∃ e ∈ (validateFields ⟨cfg, rules⟩ ctx fs).1, P e := by
  induction fs with
  | nil => cases hmem
  | cons fv rest ih =>
    rcases List.mem_cons.mp hmem with heq | hm
    · subst heq
      simp only [validateFields]
      split
      · simp_all
      · split
        · rename_i hcond
          rcases hcond with h | h
          · exact absurd h ht1
          · exact absurd h ht2
        · simp only [hstop, Bool.false_eq_true, and_false, if_false]
          obtain ⟨e, he, hp⟩ := hex
          exact ⟨e, List.mem_append.mpr (Or.inl he), hp⟩
    · simp only [validateFields]
      split
      · exact ih hm
      · split
        · exact ih hm
        · simp only [hstop, Bool.false_eq_true, and_false, if_false]
          obtain ⟨e, he, hp⟩ := ih hm
          exact ⟨e, List.mem_append.mpr (Or.inr he), hp⟩

/-- Dispatching the built-in `min` rule with an unparseable parameter
(no custom rule registered under "min") yields the parse-failure
validation error, for every value. -/
theorem validateRule_min_parse_failure (cfg : Config) (rules : List (Str × RuleFn))
    (fn : Str) (v : GoValue) (params : Str) (ctx : Ctx)
    (hcustom : lookupStr rules (gs "min") = none)
    (hbad : atoi params = none) :
    validateRule ⟨cfg, rules⟩ fn v (gs "min") params ctx
      = (some (gs "invalid min parameter: " ++ params), []) := by
  unfold validateRule
  rw [show lookupStr (Handler.mk cfg rules).rules (gs "min") = none from hcustom]
  rw [if_neg (by decide), if_pos rfl]
  unfold validateMin
  rw [hbad]

/-- C7: a rule parameter that fails to parse is surfaced as a
`ValidationError` on that field and rule, never as an engine-level
failure: for a struct whose exported, non-skipped field carries a
`min` token with an unparseable parameter — the rule not being
overridden by a custom rule and stop mode off, so that the rule is
actually evaluated — `ValidateStruct` returns a validation error set
(not the distinct configuration error) containing an entry for that
field with tag `min`. -/
theorem C7_malformed_min_param (cfg : Config) (rules : List (Str × RuleFn))
    (fields : List (FieldMeta × GoValue)) (ctx : Ctx) (m : FieldMeta)
    (v : GoValue) (r : Str)
    (hstop : cfg.stopOnFirstError = false)
    (hcustom : lookupStr rules (gs "min") = none)
    (hmem : (m, v) ∈ fields) (hexp : m.exported = true)
    (ht1 : getValidationTag m ≠ []) (ht2 : getValidationTag m ≠ gs "-")
    (hr : r ∈ splitOnChar ',' (getValidationTag m))
    (hname : ruleNameOf r = gs "min")
    (hbad : atoi (ruleParamsOf r) = none) :
    ∃ errs, (ValidateStruct ⟨cfg, rules⟩ (some (.VStruct fields)) ctx).1
        = some (.validation errs)
      ∧ ∃ e ∈ errs, e.field = getFieldName m ∧ e.tag = gs "min" := by
  have hrt : trimSpace r ≠ [] := by
    intro h
    rw [ruleNameOf, h] at hname
    exact absurd hname (by decide)
  have hfail : (validateRule ⟨cfg, rules⟩ (getFieldName m) v (ruleNameOf r)
      (ruleParamsOf r) ctx).1.isSome = true := by
    rw [hname, validateRule_min_parse_failure cfg rules (getFieldName m) v
      (ruleParamsOf r) ctx hcustom hbad]
    rfl
  have hex := validateRules_mem_fail cfg rules (getFieldName m)
    (getCustomMessage m) v ctx (splitOnChar ',' (getValidationTag m)) r
    hstop hr hrt hfail
  rw [hname] at hex
  have hex2 : ∃ e ∈ (validateField ⟨cfg, rules⟩ m v (getValidationTag m) ctx).1,
      e.field = getFieldName m ∧ e.tag = gs "min" := hex
  obtain ⟨e, he, hp⟩ := validateFields_mem cfg rules ctx fields m v _
    hstop hmem hexp ht1 ht2 hex2
  refine ⟨(validateFields ⟨cfg, rules⟩ ctx fields).1, ?_, ⟨e, he, hp⟩⟩
  have hne : ((validateFields ⟨cfg, rules⟩ ctx fields).1).isEmpty = false := by
    cases h : (validateFields ⟨cfg, rules⟩ ctx fields).1 with
    | nil => rw [h] at he; cases he
    | cons _ _ => rfl
  simp [ValidateStruct, elemIfPtr, hne]

/-- Witness for C7 on a one-field struct tagged `min=abc`. -/
theorem C7_malformed_min_param_witness :
    ∃ errs, (ValidateStruct ⟨getDefaultConfig, []⟩
        (some (.VStruct [(mkMeta "Age" "min=abc" "age", .VString (gs "hi"))])) []).1
        = some (.validation errs)
      ∧ ∃ e ∈ errs, e.field = getFieldName (mkMeta "Age" "min=abc" "age")
          ∧ e.tag = gs "min" :=
  C7_malformed_min_param getDefaultConfig []
    [(mkMeta "Age" "min=abc" "age", .VString (gs "hi"))] []
    (mkMeta "Age" "min=abc" "age") (.VString (gs "hi")) (gs "min=abc")
    rfl rfl (List.mem_cons_self _ _) rfl (by decide) (by decide) (by decide)
    rfl rfl

theorem matchClasses_nil_iff (s : Str) : matchClasses [] s = true ↔ s = [] := by
  cases s <;> simp [matchClasses]

/-- An anchored class-sequence match decomposes along concatenation of
the pattern. -/
theorem matchClasses_append (p q : List (Char → Bool)) (s : Str) :
    matchClasses (p ++ q) s = true
      ↔ ∃ s1 s2, s = s1 ++ s2 ∧ matchClasses p s1 = true
          ∧ matchClasses q s2 = true := by
  induction p generalizing s with
  | nil =>
    simp only [List.nil_append]
    constructor
    · intro h
      exact ⟨[], s, rfl, rfl, h⟩
    · rintro ⟨s1, s2, rfl, h1, h2⟩
      have hs1 : s1 = [] := (matchClasses_nil_iff s1).mp h1
      subst hs1
      simpa using h2
  | cons f p ih =>
    cases s with
    | nil =>
      constructor
      · intro h
        simp [matchClasses] at h
      · rintro ⟨s1, s2, hs, h1, h2⟩
        cases s1 with
        | nil => simp [matchClasses] at h1
        | cons a t => simp at hs
    | cons c cs =>
      simp only [List.cons_append, matchClasses, Bool.and_eq_true,
        List.append_eq, ih]
      constructor
      · rintro ⟨hf, s1, s2, rfl, h1, h2⟩
        refine ⟨c :: s1, s2, rfl, ?_, h2⟩
        simp [matchClasses, hf, h1]
      · rintro ⟨s1, s2, hs, h1, h2⟩
        cases s1 with
        | nil => simp [matchClasses] at h1
        | cons a t =>
          simp only [List.cons_append, List.cons.injEq] at hs
          obtain ⟨rfl, rfl⟩ := hs
          simp only [matchClasses, Bool.and_eq_true] at h1
          exact ⟨h1.1, t, s2, rfl, h1.2, h2⟩

/-- An anchored match of n copies of one class is a length condition
plus a pointwise condition. -/
theorem matchClasses_replicate (f : Char → Bool) (n : Nat) (s : Str) :
    matchClasses (List.replicate n f) s = true
      ↔ s.length = n ∧ ∀ c ∈ s, f c = true := by
  induction n generalizing s with
  | zero => cases s <;> simp [matchClasses]
  | succ n ih =>
    cases s with
    | nil => simp [List.replicate_succ, matchClasses]
    | cons c cs =>
      simp only [List.replicate_succ, matchClasses, Bool.and_eq_true, ih,
        List.length_cons, List.mem_cons]
      constructor
      · rintro ⟨hc, hl, hall⟩
        refine ⟨by omega, ?_⟩
        rintro x (rfl | hx)
        · exact hc
        · exact hall x hx
      · rintro ⟨hl, hall⟩
        exact ⟨hall c (Or.inl rfl), by omega, fun x hx => hall x (Or.inr hx)⟩

/-- An anchored match of one class is a one-character string satisfying
it. -/
theorem matchClasses_single (f : Char → Bool) (s : Str) :
    matchClasses [f] s = true ↔ ∃ c, s = [c] ∧ f c = true := by
  cases s with
  | nil => simp [matchClasses]
  | cons c cs =>
    cases cs with
    | nil => simp [matchClasses]
    | cons d ds => simp [matchClasses]

theorem matchClasses_append_of (p q : List (Char → Bool)) (sx t : Str)
    (hp : matchClasses p sx = true) (hq : matchClasses q t = true) :
    matchClasses (p ++ q) (sx ++ t) = true :=
  (matchClasses_append p q (sx ++ t)).mpr ⟨sx, t, rfl, hp, hq⟩

/-- The anchored UUID v4 regexp matches a string exactly when the string
has the five-group hyphen-separated layout. -/
theorem uuid_match_iff (s : Str) :
    matchClasses uuidPattern s = true ↔ uuidV4Layout s := by
  constructor
  · intro h
    simp only [uuidPattern, matchClasses_append, matchClasses_replicate,
      matchClasses_single, decide_eq_true_eq] at h
    obtain ⟨a0, g5, rfl, ⟨a1, d4, rfl, ⟨a2, t4, rfl, ⟨a3, cs4, rfl,
      ⟨a4, d3, rfl, ⟨a5, t3, rfl, ⟨a6, v4, rfl, ⟨a7, d2, rfl,
      ⟨a8, g2, rfl, ⟨g1, d1, rfl, ⟨hg1len, hg1hex⟩, cd1, rfl, rfl⟩,
      hg2len, hg2hex⟩, cd2, rfl, rfl⟩, cv, rfl, rfl⟩, ht3len, ht3hex⟩,
      cd3, rfl, rfl⟩, c4, rfl, hvar⟩, ht4len, ht4hex⟩, cd4, rfl, rfl⟩,
      hg5len, hg5hex⟩ := h
    refine ⟨g1, g2, '4' :: t3, c4 :: t4, g5, ?_, hg1len, hg2len,
      by simp [ht3len], by simp [ht4len], hg5len, ?_, ⟨t3, rfl⟩,
      ⟨c4, t4, rfl, hvar⟩⟩
    · simp [List.append_assoc]
    · intro c hc
      simp only [List.mem_append, List.mem_cons] at hc
      rcases hc with ((((hc | hc) | (rfl | hc)) | (rfl | hc)) | hc)
      · exact hg1hex c hc
      · exact hg2hex c hc
      · decide
      · exact ht3hex c hc
      · rcases hvar with rfl | rfl | rfl | rfl <;> decide
      · exact ht4hex c hc
      · exact hg5hex c hc
  · rintro ⟨g1, g2, g3, g4, g5, rfl, hl1, hl2, hl3, hl4, hl5, hhex,
      ⟨t3, rfl⟩, ⟨c4, t4, rfl, hvar⟩⟩
    have hs : g1 ++ ['-'] ++ g2 ++ ['-'] ++ ('4' :: t3) ++ ['-']
          ++ (c4 :: t4) ++ ['-'] ++ g5
        = g1 ++ ['-'] ++ g2 ++ ['-'] ++ ['4'] ++ t3 ++ ['-']
          ++ [c4] ++ t4 ++ ['-'] ++ g5 := by
      simp [List.append_assoc]
    rw [hs]
    have hhex1 : ∀ c ∈ g1, isHexLower c = true := fun c hc =>
      hhex c (by simp [List.mem_append, hc])
    have hhex2 : ∀ c ∈ g2, isHexLower c = true := fun c hc =>
      hhex c (by simp [List.mem_append, hc])
    have hhex3 : ∀ c ∈ t3, isHexLower c = true := fun c hc =>
      hhex c (by simp [List.mem_append, List.mem_cons, hc])
    have hhex4 : ∀ c ∈ t4, isHexLower c = true := fun c hc =>
      hhex c (by simp [List.mem_append, List.mem_cons, hc])
    have hhex5 : ∀ c ∈ g5, isHexLower c = true := fun c hc =>
      hhex c (by simp [List.mem_append, hc])
    have hl3t : t3.length = 3 := by
      have := hl3
      simp only [List.length_cons] at this
      omega
    have hl4t : t4.length = 3 := by
      have := hl4
      simp only [List.length_cons] at this
      omega
    refine matchClasses_append_of _ _ _ _ (matchClasses_append_of _ _ _ _
      (matchClasses_append_of _ _ _ _ (matchClasses_append_of _ _ _ _
      (matchClasses_append_of _ _ _ _ (matchClasses_append_of _ _ _ _
      (matchClasses_append_of _ _ _ _ (matchClasses_append_of _ _ _ _
      (matchClasses_append_of _ _ _ _ (matchClasses_append_of _ _ _ _
        ((matchClasses_replicate isHexLower 8 g1).mpr ⟨hl1, hhex1⟩)
        (by decide))
        ((matchClasses_replicate isHexLower 4 g2).mpr ⟨hl2, hhex2⟩))
        (by decide))
        (by decide))
        ((matchClasses_replicate isHexLower 3 t3).mpr ⟨hl3t, hhex3⟩))
        (by decide))
        ((matchClasses_single _ [c4]).mpr ⟨c4, rfl, by simpa using hvar⟩))
        ((matchClasses_replicate isHexLower 3 t4).mpr ⟨hl4t, hhex4⟩))
        (by decide))
        ((matchClasses_replicate isHexLower 12 g5).mpr ⟨hl5, hhex5⟩)

/-- C8: for every string value the uuid rule passes iff the lower-cased
string has the UUID version-4 textual layout — five hyphen-separated
lowercase-hexadecimal groups of lengths 8-4-4-4-12, the third group
starting with `4` and the fourth with one of `8`, `9`, `a`, `b` (the
lower-casing makes the match case-insensitive); a version-1-shaped UUID
is rejected. -/
theorem C8_uuid_v4_layout (s params : Str) (ctx : Ctx) :
    (UUIDRule_Validate (.VString s) params ctx = none
      ↔ uuidV4Layout (strToLower s))
    ∧ UUIDRule_Validate
        (.VString (gs "550e8400-e29b-11d4-a716-446655440000")) params ctx
        = some (gs "UUID must be a valid UUID v4") := by
  constructor
  · rw [← uuid_match_iff]
    unfold UUIDRule_Validate
    split <;> simp_all
  · rfl

end GoToolkit
